import Mathlib

/-!
# caibo86/ping: the checksum engine and the probe loop

A shallow embedding of `misc/ping.go`.

* Bytes are natural numbers below 256, `uint16` values are naturals below
  65536 and `uint32` values naturals below 4294967296; every conversion and
  every `uint32` addition of the source is followed by the matching `%`.
* Go `int` is a two's complement integer of 64 bits, or of 32 bits on a 32-bit
  build; the width is the parameter `bits`.  The arithmetic of
  `printStatistics`, whose product `(SendCount-RecvCount)*100` can leave that
  range, wraps explicitly (`wrapInt`).  The counters of the loop are kept as
  integers: `SendCount` and `RecvCount` stay between 0 and `max Count 1`
  (`counters_bounded`, `sendCount_le_max`), inside the range of an `int`, and
  `ID` is read only through `uint16(ping.ID)`, which wrap-around of `ID` does
  not change because 65536 divides `2^32` and `2^64`.
* `MaxTime` and `MinTime` are `float64` in the source.  Every value stored in
  them is either the zero value or `float64(µs) / 1000` with `µs ≥ 0`, a finite
  number; they are represented by their exact rational value, on which Go's
  `min` and `max` agree with the rational order.  `TotalTime` (a floating
  point accumulation) is left out.
* Network and clock effects of one tick are an `Event`, supplied from outside.
-/

namespace Misc

/-! ## Machine integer conversions -/

/-- Conversion to `uint32` (also the wrap-around of `uint32` addition). -/
def u32 (x : Nat) : Nat := x % 4294967296

/-- Conversion to `uint16`. -/
def u16 (x : Nat) : Nat := x % 65536

/-- Conversion to `byte`. -/
def u8 (x : Nat) : Nat := x % 256

/-! ## checkSum (ping.go:159-178) -/

/-- The word loop `for length > 1 { ... }` of `checkSum` together with the
`if length == 1` tail, with the `uint32` accumulator `sum` as first argument.
The list is the part of `data` from `index` on. -/
def sumLoop : Nat → List Nat → Nat
  | sum, b0 :: b1 :: rest => sumLoop (u32 (sum + u32 (u32 (b0 * 256) + b1))) rest
  | sum, [b] => u32 (sum + b)
  | sum, [] => sum

/-- The loop `hi := sum >> 16; for hi != 0 { sum = hi + (sum & 0xff); hi = sum >> 16 }`
of `checkSum`, run for at most `fuel` iterations, returning the final `sum`. -/
def foldLoopFuel : Nat → Nat → Nat
  | 0, sum => sum
  | fuel + 1, sum =>
    if sum / 65536 = 0 then sum
    else foldLoopFuel fuel (u32 (sum / 65536 + sum % 256))

/-- The carry loop of `checkSum`.  Every iteration makes `sum` smaller, so
`sum` iterations are enough (`foldLoop_eq`, `foldLoop_exit`). -/
def foldLoop (sum : Nat) : Nat := foldLoopFuel sum sum

/-- The function `checkSum(data []byte) uint16`: `uint16(^sum)` of the folded sum. -/
def checkSum (data : List Nat) : Nat :=
  u16 (4294967295 - foldLoop (sumLoop 0 data))

/-! ## The Internet checksum as the specification words it -/

/-- Sum of the big-endian 16-bit words of the data; a trailing single byte is
the high byte of a zero-padded word. -/
def wordSum : List Nat → Nat
  | b0 :: b1 :: rest => (b0 * 256 + b1) + wordSum rest
  | [b] => b * 256
  | [] => 0

/-- Fold the carry out of bit 15 back into the low 16 bits, at most `fuel` times. -/
def foldCarriesFuel : Nat → Nat → Nat
  | 0, s => s
  | fuel + 1, s =>
    if s < 65536 then s
    else foldCarriesFuel fuel (s % 65536 + s / 65536)

/-- Fold every carry out of bit 15 back into the low 16 bits until none
remains (`foldCarries_lt`). -/
def foldCarries (s : Nat) : Nat := foldCarriesFuel s s

/-- The RFC 1071 checksum: ones-complement, in 16 bits, of the folded word sum. -/
def rfc1071 (data : List Nat) : Nat :=
  65535 - foldCarries (wordSum data)

/-! ## The ICMP header and the packet of one tick (ping.go:21-28, 95-120) -/

/-- Conversion of a Go `int` to `uint16`, as in `uint16(ping.ID)`. -/
def toU16 (x : Int) : Nat := (x % 65536).toNat

/-- The struct `ICMP` (the field `Type` is spelled `Type_`). -/
structure ICMP where
  Type_ : Nat
  Code : Nat
  CheckSum : Nat
  ID : Nat
  Seq : Nat
  deriving DecidableEq, Repr

/-- Big-endian bytes of a `uint16`: `byte(v >> 8)`, `byte(v)`. -/
def bigEndian16 (v : Nat) : List Nat := [u8 (v / 256), u8 v]

/-- The bytes `binary.Write(&buffer, binary.BigEndian, icmp)` appends: the
fields in declaration order, the 16-bit ones big-endian. -/
def ICMP.encode (h : ICMP) : List Nat :=
  [u8 h.Type_, u8 h.Code] ++ bigEndian16 h.CheckSum ++ bigEndian16 h.ID ++ bigEndian16 h.Seq

/-- The header of ping.go:95-99 with `icmp.ID` and `icmp.Seq` set from the
counter (ping.go:108-109). -/
def header (id : Int) : ICMP :=
  { Type_ := 8, Code := 0, CheckSum := 0, ID := toU16 id, Seq := toU16 id }

/-- The buffer after `binary.Write` and `buffer.Write(data)` (ping.go:110-117),
where `data = make([]byte, size)`: the checksum field is still zero. -/
def rawMsg (id : Int) (size : Nat) : List Nat :=
  (header id).encode ++ List.replicate size 0

/-- The message handed to `conn.Write`: `sum := checkSum(msg)`, then
`msg[2] = byte(sum >> 8)` and `msg[3] = byte(sum)` (ping.go:118-120). -/
def buildMsg (id : Int) (size : Nat) : List Nat :=
  let msg := rawMsg id size
  let sum := checkSum msg
  (msg.set 2 (u8 (sum / 256))).set 3 (u8 sum)

/-! ## The session state and the probe loop (ping.go:30-61, 77-157) -/

/-- The struct `Ping`, without the fields that only feed the connection and the
console (`Destination`, `Help`, `Timeout`, `Stop`) and without `TotalTime`. -/
structure Ping where
  Size : Nat
  Count : Int
  SendCount : Int
  RecvCount : Int
  MaxTime : ℚ
  MinTime : ℚ
  ID : Int
  deriving DecidableEq, Repr

/-- The function `NewPing`: every field has its zero value. -/
def NewPing : Ping :=
  { Size := 0, Count := 0, SendCount := 0, RecvCount := 0, MaxTime := 0, MinTime := 0, ID := 0 }

/-- A fresh session: `NewPing()` followed by `ParseArgs`, which stores the
`-s` and `-c` options. -/
def fresh (size : Nat) (count : Int) : Ping :=
  { NewPing with Size := size, Count := count }

/-- What the outside world does in one iteration of the `for { select { ... } }`. -/
inductive Event where
  /-- The case `<-ping.Stop` fires. -/
  | stop
  /-- The ticker fires and `binary.Write` returns an error. -/
  | writeFail
  /-- The ticker fires and `conn.SetDeadline` returns an error. -/
  | deadlineFail
  /-- The ticker fires and `conn.Write` returns an error. -/
  | sendFail
  /-- The packet is written and `conn.Read` returns an error (also a timeout). -/
  | recvFail
  /-- The packet is written and a reply is read; `t` is the value of
  `float64(time.Since(startTime).Microseconds()) / 1000`. -/
  | reply (t : ℚ)
  deriving DecidableEq, Repr

/-- The message built in the tick that starts in state `p` (ping.go:107-120). -/
def tickPacket (p : Ping) : List Nat := buildMsg (p.ID + 1) p.Size

/-- One iteration of the loop of `Run`.  The boolean is `true` when the
iteration executes `return`, `false` when it ends in `break` or falls out of
the `select`, after which the `for` goes round again. -/
def tick (p : Ping) : Event → Ping × Bool
  | .stop => (p, true)
  | .writeFail => ({ p with ID := p.ID + 1 }, false)
  | .deadlineFail => ({ p with ID := p.ID + 1 }, false)
  | .sendFail => ({ p with ID := p.ID + 1 }, false)
  | .recvFail =>
    let p1 := { p with ID := p.ID + 1 }
    let p2 := { p1 with SendCount := p1.SendCount + 1 }
    (p2, decide (p2.SendCount ≥ p2.Count))
  | .reply t =>
    let p1 := { p with ID := p.ID + 1 }
    let p2 := { p1 with SendCount := p1.SendCount + 1 }
    let p3 := { p2 with RecvCount := p2.RecvCount + 1 }
    let p4 := { p3 with MaxTime := max p3.MaxTime t }
    let p5 := { p4 with MinTime := min p4.MinTime t }
    (p5, decide (p5.SendCount ≥ p5.Count))

/-- The loop of `Run` driven by a list of events: the state reached and whether
the loop has returned.  Events after the return are not consumed. -/
def runLoop (p : Ping) : List Event → Ping × Bool
  | [] => (p, false)
  | e :: es => if (tick p e).2 then ((tick p e).1, true) else runLoop (tick p e).1 es

/-- The round-trip times recorded (ping.go:146-151) while `runLoop` consumes the events. -/
def recorded (p : Ping) : List Event → List ℚ
  | [] => []
  | .reply t :: es => if (tick p (.reply t)).2 then [t] else t :: recorded (tick p (.reply t)).1 es
  | e :: es => if (tick p e).2 then [] else recorded (tick p e).1 es

/-- Wrap-around of a Go `int` of `bits` bits: the representative of `x` modulo
`2^bits` between `-2^(bits-1)` and `2^(bits-1) - 1`. -/
def wrapInt (bits : Nat) (x : Int) : Int :=
  (x + ((2 ^ (bits - 1) : Nat) : Int)) % (2 * ((2 ^ (bits - 1) : Nat) : Int))
    - ((2 ^ (bits - 1) : Nat) : Int)

/-- The integer part of the summary line of `printStatistics` (ping.go:57-58)
on a build whose `int` has `bits` bits: packets transmitted, packets received
and `(ping.SendCount-ping.RecvCount)*100/ping.SendCount`.  Every operation
wraps; Go integer division truncates toward zero and panics on a zero divisor,
which is `none`. -/
def Ping.printStatistics (bits : Nat) (p : Ping) : Option (Int × Int × Int) :=
  if p.SendCount = 0 then none
  else some (p.SendCount, p.RecvCount,
    wrapInt bits
      ((wrapInt bits (wrapInt bits (p.SendCount - p.RecvCount) * 100)).tdiv p.SendCount))

/-! ## The carry loops terminate within their fuel -/

theorem u32_le (x : Nat) : u32 x ≤ x := Nat.mod_le _ _

theorem foldLoop_step_lt (sum : Nat) (h : ¬ sum / 65536 = 0) :
    u32 (sum / 65536 + sum % 256) < sum :=
  Nat.lt_of_le_of_lt (u32_le _) (by omega)

theorem foldLoopFuel_indep : ∀ (f g sum : Nat), sum ≤ f → sum ≤ g →
    foldLoopFuel f sum = foldLoopFuel g sum := by
  intro f
  induction f with
  | zero =>
    intro g sum hf _
    have h0 : sum = 0 := by omega
    subst h0
    cases g <;> simp [foldLoopFuel]
  | succ f ih =>
    intro g sum hf hg
    cases g with
    | zero =>
      have h0 : sum = 0 := by omega
      subst h0
      simp [foldLoopFuel]
    | succ g =>
      simp only [foldLoopFuel]
      by_cases h : sum / 65536 = 0
      · simp [h]
      · have hlt := foldLoop_step_lt sum h
        simp only [h, if_false]
        exact ih g _ (by omega) (by omega)

/-- The loop equation of the carry loop of `checkSum`. -/
theorem foldLoop_eq (sum : Nat) :
    foldLoop sum = if sum / 65536 = 0 then sum else foldLoop (u32 (sum / 65536 + sum % 256)) := by
  by_cases h : sum / 65536 = 0
  · simp only [h, if_true]
    unfold foldLoop
    cases sum <;> simp_all [foldLoopFuel]
  · have hlt := foldLoop_step_lt sum h
    simp only [h, if_false]
    unfold foldLoop
    obtain ⟨n, rfl⟩ : ∃ n, sum = n + 1 := ⟨sum - 1, by omega⟩
    simp only [foldLoopFuel, h, if_false]
    exact foldLoopFuel_indep _ _ _ (by omega) (Nat.le_refl _)

/-- The carry loop of `checkSum` leaves the loop: on exit `sum >> 16` is zero. -/
theorem foldLoop_exit (sum : Nat) : foldLoop sum / 65536 = 0 := by
  induction sum using Nat.strong_induction_on with
  | _ sum ih =>
    rw [foldLoop_eq]
    by_cases h : sum / 65536 = 0
    · simp [h]
    · simp only [h, if_false]
      exact ih _ (foldLoop_step_lt sum h)

theorem foldCarriesFuel_indep : ∀ (f g s : Nat), s ≤ f → s ≤ g →
    foldCarriesFuel f s = foldCarriesFuel g s := by
  intro f
  induction f with
  | zero =>
    intro g s hf _
    have h0 : s = 0 := by omega
    subst h0
    cases g <;> simp [foldCarriesFuel]
  | succ f ih =>
    intro g s hf hg
    cases g with
    | zero =>
      have h0 : s = 0 := by omega
      subst h0
      simp [foldCarriesFuel]
    | succ g =>
      simp only [foldCarriesFuel]
      by_cases h : s < 65536
      · simp [h]
      · simp only [h, if_false]
        exact ih g _ (by omega) (by omega)

/-- The loop equation of the specification's carry folding. -/
theorem foldCarries_eq (s : Nat) :
    foldCarries s = if s < 65536 then s else foldCarries (s % 65536 + s / 65536) := by
  by_cases h : s < 65536
  · simp only [h, if_true]
    unfold foldCarries
    cases s <;> simp_all [foldCarriesFuel]
  · simp only [h, if_false]
    unfold foldCarries
    obtain ⟨n, rfl⟩ : ∃ n, s = n + 1 := ⟨s - 1, by omega⟩
    simp only [foldCarriesFuel, h, if_false]
    exact foldCarriesFuel_indep _ _ _ (by omega) (Nat.le_refl _)

/-- After the folding no carry remains. -/
theorem foldCarries_lt (s : Nat) : foldCarries s < 65536 := by
  induction s using Nat.strong_induction_on with
  | _ s ih =>
    rw [foldCarries_eq]
    by_cases h : s < 65536
    · simp [h]
    · simp only [h, if_false]
      exact ih _ (by omega)

/-! ## General facts about the loop -/

theorem runLoop_cons (p : Ping) (e : Event) (es : List Event) :
    runLoop p (e :: es) =
      if (tick p e).2 then ((tick p e).1, true) else runLoop (tick p e).1 es := rfl

/-- A property of the state and of the returned flag that every iteration
started in a running loop establishes holds along every run. -/
theorem runLoop_invariant (I : Ping → Bool → Prop)
    (hstep : ∀ p e, I p false → I (tick p e).1 (tick p e).2) :
    ∀ (es : List Event) (p : Ping), I p false → I (runLoop p es).1 (runLoop p es).2 := by
  intro es
  induction es with
  | nil => intro p h; exact h
  | cons e es ih =>
    intro p h
    rw [runLoop_cons]
    have hs := hstep p e h
    cases hb : (tick p e).2 with
    | true =>
      rw [hb] at hs
      simpa using hs
    | false =>
      rw [hb] at hs
      simpa using ih _ hs

theorem runLoop_append (p : Ping) (es fs : List Event) (h : (runLoop p es).2 = false) :
    runLoop p (es ++ fs) = runLoop (runLoop p es).1 fs := by
  induction es generalizing p with
  | nil => rfl
  | cons e es ih =>
    rw [runLoop_cons] at h
    rw [List.cons_append, runLoop_cons, runLoop_cons]
    cases hb : (tick p e).2 with
    | true => simp [hb] at h
    | false =>
      simp only [hb] at h
      simpa using ih _ (by simpa using h)

theorem tick_Count (p : Ping) (e : Event) : (tick p e).1.Count = p.Count := by
  cases e <;> rfl

theorem tick_Size (p : Ping) (e : Event) : (tick p e).1.Size = p.Size := by
  cases e <;> rfl

theorem runLoop_Count (p : Ping) (es : List Event) : (runLoop p es).1.Count = p.Count :=
  runLoop_invariant (fun q _ => q.Count = p.Count)
    (fun q e h => (tick_Count q e).trans h) es p rfl

theorem runLoop_Size (p : Ping) (es : List Event) : (runLoop p es).1.Size = p.Size :=
  runLoop_invariant (fun q _ => q.Size = p.Size)
    (fun q e h => (tick_Size q e).trans h) es p rfl

/-- While the loop has not returned, the counter `ID` has advanced by one per
consumed event. -/
theorem runLoop_ID (p : Ping) (es : List Event) (h : (runLoop p es).2 = false) :
    (runLoop p es).1.ID = p.ID + es.length := by
  induction es generalizing p with
  | nil => simp [runLoop]
  | cons e es ih =>
    rw [runLoop_cons] at h ⊢
    cases hb : (tick p e).2 with
    | true => simp [hb] at h
    | false =>
      simp only [hb] at h ⊢
      have h2 : (runLoop (tick p e).1 es).2 = false := by simpa using h
      have := ih _ h2
      have hid : (tick p e).1.ID = p.ID + 1 := by
        cases e <;> first | rfl | (simp [tick] at hb)
      simp only [Bool.false_eq_true, if_false, List.length_cons]
      rw [this, hid]
      push_cast
      ring

/-- Receive failures while the target has not been reached: the loop goes on,
`ID` and `SendCount` grow by one per tick. -/
theorem runLoop_replicate_recvFail (m : Nat) (p : Ping) (h : p.SendCount + m < p.Count) :
    runLoop p (List.replicate m Event.recvFail) =
      ({ p with ID := p.ID + m, SendCount := p.SendCount + m }, false) := by
  induction m generalizing p with
  | zero => simp [runLoop]
  | succ m ih =>
    rw [List.replicate_succ, runLoop_cons]
    have hlt : ¬ (p.SendCount + 1 ≥ p.Count) := by push_cast at h; omega
    simp only [tick, hlt, decide_False, Bool.false_eq_true, if_false]
    rw [ih]
    · simp only [Nat.cast_add, Nat.cast_one]
      congr 2 <;> ring
    · simp only
      push_cast at h
      omega

theorem runLoop_ID_le (p : Ping) (es : List Event) :
    (runLoop p es).1.ID ≤ p.ID + es.length := by
  induction es generalizing p with
  | nil => simp [runLoop]
  | cons e es ih =>
    rw [runLoop_cons]
    have hid : (tick p e).1.ID ≤ p.ID + 1 := by
      cases e <;> simp [tick]
    cases hb : (tick p e).2 with
    | true =>
      simp only [if_true, List.length_cons]
      push_cast
      omega
    | false =>
      simp only [Bool.false_eq_true, if_false, List.length_cons]
      have := ih (tick p e).1
      push_cast
      omega

/-- In a run of `n` events from a fresh session the counters satisfy
`0 ≤ RecvCount ≤ SendCount ≤ ID ≤ n`. -/
theorem counters_bounded (size : Nat) (count : Int) (es : List Event) :
    0 ≤ (runLoop (fresh size count) es).1.RecvCount ∧
    (runLoop (fresh size count) es).1.RecvCount ≤ (runLoop (fresh size count) es).1.SendCount ∧
    (runLoop (fresh size count) es).1.SendCount ≤ (runLoop (fresh size count) es).1.ID ∧
    (runLoop (fresh size count) es).1.ID ≤ es.length := by
  have h1 := runLoop_invariant
    (fun q _ => 0 ≤ q.RecvCount ∧ q.RecvCount ≤ q.SendCount ∧ q.SendCount ≤ q.ID)
    (fun q e h => by cases e <;> simp [tick] <;> omega)
    es (fresh size count) (by simp [fresh, NewPing])
  have h2 := runLoop_ID_le (fresh size count) es
  simp only [fresh, NewPing, zero_add] at h2
  exact ⟨h1.1, h1.2.1, h1.2.2, h2⟩

theorem runLoop_append_returned (p : Ping) (es fs : List Event) (h : (runLoop p es).2 = true) :
    runLoop p (es ++ fs) = runLoop p es := by
  induction es generalizing p with
  | nil => simp [runLoop] at h
  | cons e es ih =>
    rw [runLoop_cons] at h
    rw [List.cons_append, runLoop_cons, runLoop_cons]
    cases hb : (tick p e).2 with
    | true => simp
    | false =>
      simp only [hb] at h
      simpa using ih _ (by simpa using h)

theorem tick_MinTime_le (p : Ping) (e : Event) : (tick p e).1.MinTime ≤ p.MinTime := by
  cases e <;> simp [tick]

theorem tick_MaxTime_ge (p : Ping) (e : Event) : p.MaxTime ≤ (tick p e).1.MaxTime := by
  cases e <;> simp [tick]

theorem runLoop_MinTime_le (p : Ping) (es : List Event) : (runLoop p es).1.MinTime ≤ p.MinTime :=
  runLoop_invariant (fun q _ => q.MinTime ≤ p.MinTime)
    (fun q e h => le_trans (tick_MinTime_le q e) h) es p (le_refl _)

theorem runLoop_MaxTime_ge (p : Ping) (es : List Event) : p.MaxTime ≤ (runLoop p es).1.MaxTime :=
  runLoop_invariant (fun q _ => p.MaxTime ≤ q.MaxTime)
    (fun q e h => le_trans h (tick_MaxTime_ge q e)) es p (le_refl _)

theorem tick_reply_bounds (p : Ping) (t : ℚ) :
    (tick p (Event.reply t)).1.MinTime ≤ t ∧ t ≤ (tick p (Event.reply t)).1.MaxTime := by
  simp [tick]

theorem recorded_bounds (es : List Event) (p : Ping) (t : ℚ) (h : t ∈ recorded p es) :
    (runLoop p es).1.MinTime ≤ t ∧ t ≤ (runLoop p es).1.MaxTime := by
  induction es generalizing p with
  | nil => simp [recorded] at h
  | cons e es ih =>
    rw [runLoop_cons]
    cases e with
    | reply t0 =>
      simp only [recorded] at h
      have hb0 := tick_reply_bounds p t0
      cases hb : (tick p (Event.reply t0)).2 with
      | true =>
        simp only [hb, if_true, List.mem_singleton] at h
        subst h
        simpa using hb0
      | false =>
        simp only [hb, Bool.false_eq_true, if_false, List.mem_cons] at h ⊢
        rcases h with h | h
        · subst h
          exact ⟨le_trans (runLoop_MinTime_le _ es) hb0.1,
            le_trans hb0.2 (runLoop_MaxTime_ge _ es)⟩
        · exact ih _ h
    | stop => simp [recorded, tick] at h
    | writeFail => simpa [recorded, tick] using ih _ (by simpa [recorded, tick] using h)
    | deadlineFail => simpa [recorded, tick] using ih _ (by simpa [recorded, tick] using h)
    | sendFail => simpa [recorded, tick] using ih _ (by simpa [recorded, tick] using h)
    | recvFail =>
      simp only [recorded] at h
      cases hb : (tick p Event.recvFail).2 with
      | true => simp [hb] at h
      | false =>
        simp only [hb, Bool.false_eq_true, if_false] at h ⊢
        exact ih _ h

/-- Wrap-around leaves a value in the range of an `int` unchanged. -/
theorem wrapInt_eq (bits : Nat) (x : Int)
    (h1 : -((2 ^ (bits - 1) : Nat) : Int) ≤ x) (h2 : x < ((2 ^ (bits - 1) : Nat) : Int)) :
    wrapInt bits x = x := by
  unfold wrapInt
  generalize ((2 ^ (bits - 1) : Nat) : Int) = M at h1 h2 ⊢
  rw [Int.emod_eq_of_lt (by omega) (by omega)]
  omega

/-- From a fresh session `SendCount` never exceeds `max Count 1`. -/
theorem sendCount_le_max (size : Nat) (count : Int) (es : List Event) :
    (runLoop (fresh size count) es).1.SendCount ≤ max count 1 := by
  have key := runLoop_invariant
    (fun q r => q.Count = count ∧ q.SendCount ≤ max count 1 ∧
      (r = false → q.SendCount < max count 1))
    (fun q e h => by
      obtain ⟨h1, h2, h3⟩ := h
      have h4 := h3 rfl
      cases e <;> simp [tick] <;> omega)
    es (fresh size count)
    ⟨rfl, by simp [fresh, NewPing], fun _ => by simp [fresh, NewPing]⟩
  exact key.2.1

/-- Fewer receive failures than the target count: the loop is still running. -/
theorem runLoop_some_recvFail (size c m : Nat) (hm : m < c) :
    runLoop (fresh size c) (List.replicate m Event.recvFail) =
      ({ fresh size c with ID := m, SendCount := m }, false) := by
  rw [runLoop_replicate_recvFail m (fresh size c) (by simp only [fresh, NewPing]; omega)]
  simp [fresh, NewPing]

/-- As many receive failures as the target count `c ≥ 1`: the loop returns in
tick `c` with `SendCount = c`. -/
theorem runLoop_all_recvFail (size c : Nat) (hc : 1 ≤ c) :
    runLoop (fresh size c) (List.replicate c Event.recvFail) =
      ({ fresh size c with ID := c, SendCount := c }, true) := by
  obtain ⟨n, rfl⟩ : ∃ n, c = n + 1 := ⟨c - 1, by omega⟩
  have hn := runLoop_some_recvFail size (n + 1) n (by omega)
  rw [List.replicate_succ', runLoop_append _ _ _ (by rw [hn]), hn]
  simp [runLoop, tick, fresh, NewPing]

/-! ## The claims -/

/-- C1 (defect of the code): `checkSum` is not the RFC 1071 checksum.  On the
four bytes `ff ff ff ff` the word sum is `0x1fffe`; the carry loop keeps only
the low 8 bits (`sum & 0xff`) and returns `0xff00`, where RFC 1071 gives `0`. -/
theorem checkSum_differs_from_rfc1071 :
    checkSum [255, 255, 255, 255] = 65280 ∧ rfc1071 [255, 255, 255, 255] = 0 := by
  decide

/-- C2 (defect of the code): the packet of tick 31872 of a session with payload
size 0 does not satisfy the verification identity.  Its words sum, carries
folded, to `0x0100` and not to `0xffff`. -/
theorem tickPacket_breaks_verification :
    (runLoop (fresh 0 40000) (List.replicate 31871 Event.recvFail)).2 = false ∧
    tickPacket (runLoop (fresh 0 40000) (List.replicate 31871 Event.recvFail)).1
      = [8, 0, 255, 254, 124, 128, 124, 128] ∧
    foldCarries (wordSum
      (tickPacket (runLoop (fresh 0 40000) (List.replicate 31871 Event.recvFail)).1)) = 256 := by
  rw [runLoop_replicate_recvFail 31871 (fresh 0 40000) (by decide)]
  decide

/-- C3 (defect of the code): for the one-byte input `01`, `checkSum` adds the
byte as the low byte of the trailing word, so it returns `0xfffe`, while the
zero-padded input `01 00` gives `0xfeff`. -/
theorem checkSum_odd_tail_is_low_byte :
    checkSum [1] = 65534 ∧ checkSum ([1] ++ [0]) = 65279 := by
  decide

/-- C4 (defect of the code): with target count 0 the first tick whose send
succeeds still sends a packet.  The loop compares `SendCount` with `Count` only
after `conn.Write`, so it returns with `SendCount = 1`, above `Count = 0`,
whether the receive failed or a reply came. -/
theorem sendCount_exceeds_zero_count :
    runLoop (fresh 64 0) [Event.recvFail]
      = ({ fresh 64 0 with ID := 1, SendCount := 1 }, true) ∧
    (runLoop (fresh 64 0) [Event.reply 5]).2 = true ∧
    (runLoop (fresh 64 0) [Event.reply 5]).1.SendCount = 1 ∧
    (runLoop (fresh 64 0) [Event.reply 5]).1.Count = 0 ∧
    ¬ ((runLoop (fresh 64 0) [Event.recvFail]).1.SendCount
        ≤ (runLoop (fresh 64 0) [Event.recvFail]).1.Count) := by
  decide

/-- For every target count of at least 1 and every sequence of tick outcomes
from a fresh session, `SendCount` never exceeds `Count`; while the loop is still
running `SendCount` is below `Count`, and a tick that brings `SendCount` to
`Count` returns, whatever its receive did. -/
theorem sendCount_le_count (size : Nat) (count : Int) (es : List Event) (hc : 1 ≤ count) :
    (runLoop (fresh size count) es).1.SendCount ≤ count ∧
    ((runLoop (fresh size count) es).2 = false →
      (runLoop (fresh size count) es).1.SendCount < count ∧
      ∀ e, (tick (runLoop (fresh size count) es).1 e).1.SendCount = count →
        (tick (runLoop (fresh size count) es).1 e).2 = true) := by
  have key := runLoop_invariant
    (fun q r => q.Count = count ∧ q.SendCount ≤ q.Count ∧ (r = false → q.SendCount < q.Count))
    (fun q e h => by
      obtain ⟨h1, h2, h3⟩ := h
      have h4 := h3 rfl
      cases e <;> simp [tick] <;> omega)
    es (fresh size count) ⟨rfl, by simp [fresh, NewPing]; omega, fun _ => by simp [fresh, NewPing]; omega⟩
  obtain ⟨k1, k2, k3⟩ := key
  refine ⟨by omega, fun hr => ⟨by have := k3 hr; omega, fun e he => ?_⟩⟩
  have hlt := k3 hr
  cases e <;> simp [tick] at he ⊢ <;> omega

/-- An instance of `sendCount_le_count` at count 4: after three packets the
loop is running with `SendCount = 3`, and the fourth packet ends it both when
its receive fails and when a reply comes. -/
theorem sendCount_le_count_witness :
    (1 : Int) ≤ 4 ∧
    (runLoop (fresh 64 4) [Event.reply 5, Event.recvFail, Event.reply 3]).1.SendCount < 4 ∧
    (tick (runLoop (fresh 64 4) [Event.reply 5, Event.recvFail, Event.reply 3]).1
      Event.recvFail).2 = true ∧
    (tick (runLoop (fresh 64 4) [Event.reply 5, Event.recvFail, Event.reply 3]).1
      (Event.reply 7)).2 = true :=
  ⟨by decide,
   ((sendCount_le_count 64 4 [Event.reply 5, Event.recvFail, Event.reply 3]
      (by decide)).2 (by decide)).1,
   ((sendCount_le_count 64 4 [Event.reply 5, Event.recvFail, Event.reply 3]
      (by decide)).2 (by decide)).2 Event.recvFail (by decide),
   ((sendCount_le_count 64 4 [Event.reply 5, Event.recvFail, Event.reply 3]
      (by decide)).2 (by decide)).2 (Event.reply 7) (by decide)⟩

/-- C5: in every state reached from a fresh session by any sequence of tick
outcomes, `RecvCount ≤ SendCount`. -/
theorem recvCount_le_sendCount (size : Nat) (count : Int) (es : List Event) :
    (runLoop (fresh size count) es).1.RecvCount ≤ (runLoop (fresh size count) es).1.SendCount :=
  runLoop_invariant (fun q _ => q.RecvCount ≤ q.SendCount)
    (fun q e h => by cases e <;> simp [tick] <;> omega)
    es (fresh size count) (by simp [fresh, NewPing])

/-- C6 (defect of the code): when the stop signal comes before any tick the
loop returns with `SendCount = 0` and `RecvCount = 0`, and the deferred
`printStatistics` divides by `SendCount = 0`: the report is a runtime panic. -/
theorem stop_before_first_tick_panics (bits size : Nat) (count : Int) (es : List Event) :
    runLoop (fresh size count) (Event.stop :: es) = (fresh size count, true) ∧
    (runLoop (fresh size count) (Event.stop :: es)).1.SendCount = 0 ∧
    (runLoop (fresh size count) (Event.stop :: es)).1.RecvCount = 0 ∧
    (runLoop (fresh size count) (Event.stop :: es)).1.printStatistics bits = none := by
  simp [runLoop, tick, fresh, NewPing, Ping.printStatistics]

/-- C7: every round-trip time recorded during a run from a fresh session lies
between `MinTime` and `MaxTime` in the state after it is recorded and in every
later state of the run. -/
theorem recorded_between_min_max (size : Nat) (count : Int) (es fs : List Event) (t : ℚ)
    (h : t ∈ recorded (fresh size count) es) :
    (runLoop (fresh size count) (es ++ fs)).1.MinTime ≤ t ∧
    t ≤ (runLoop (fresh size count) (es ++ fs)).1.MaxTime := by
  have hb := recorded_bounds es (fresh size count) t h
  cases hr : (runLoop (fresh size count) es).2 with
  | true => rw [runLoop_append_returned _ _ _ hr]; exact hb
  | false =>
    rw [runLoop_append _ _ _ hr]
    exact ⟨le_trans (runLoop_MinTime_le _ fs) hb.1, le_trans hb.2 (runLoop_MaxTime_ge _ fs)⟩

/-- Witness of C7: the reply of 3 ms in a run of four ticks. -/
theorem recorded_between_min_max_witness :
    (3 : ℚ) ∈ recorded (fresh 64 4) [Event.reply 5, Event.reply 3] ∧
    ((runLoop (fresh 64 4) ([Event.reply 5, Event.reply 3] ++
        [Event.recvFail, Event.reply 7])).1.MinTime ≤ 3 ∧
     (3 : ℚ) ≤ (runLoop (fresh 64 4) ([Event.reply 5, Event.reply 3] ++
        [Event.recvFail, Event.reply 7])).1.MaxTime) :=
  ⟨by decide, recorded_between_min_max 64 4 [Event.reply 5, Event.reply 3]
    [Event.recvFail, Event.reply 7] 3 (by decide)⟩

/-- C8 (defect of the code): after a single reply of 5 ms from a fresh session
`MaxTime` is 5 but `MinTime` is still the zero value, not the smallest recorded
round-trip time. -/
theorem minTime_stays_zero :
    recorded (fresh 64 4) [Event.reply 5] = [5] ∧
    (runLoop (fresh 64 4) [Event.reply 5]).1.MaxTime = 5 ∧
    (runLoop (fresh 64 4) [Event.reply 5]).1.MinTime = 0 := by
  decide

/-- C9 (the claim as stated fails): with target count 92233720368547759 on a
64-bit build, and with 21474837 on a 32-bit build, every receive failing, the
product `(SendCount-RecvCount)*100` wraps and the reported packet loss is -99. -/
theorem packet_loss_wraps :
    (runLoop (fresh 64 ((92233720368547759 : Nat) : Int))
        (List.replicate 92233720368547759 Event.recvFail)).1.printStatistics 64
      = some (92233720368547759, 0, -99) ∧
    (runLoop (fresh 64 ((21474837 : Nat) : Int))
        (List.replicate 21474837 Event.recvFail)).1.printStatistics 32
      = some (21474837, 0, -99) := by
  rw [runLoop_all_recvFail 64 92233720368547759 (by decide),
    runLoop_all_recvFail 64 21474837 (by decide)]
  decide

/-- C9 (amended): for every target count `c ≥ 1` such that `c * 100` is in the
range of an `int` (below `2^(bits-1)`), when every send succeeds and every
receive fails, the loop is still running after fewer than `c` ticks and returns
in tick `c` with `SendCount = c` and `RecvCount = 0`; the report then shows `c`
transmitted, 0 received and a packet loss of 100. -/
theorem all_receives_fail (size c bits : Nat) (hc : 1 ≤ c) (hb : c * 100 < 2 ^ (bits - 1)) :
    (∀ m, m < c →
      (runLoop (fresh size c) (List.replicate m Event.recvFail)).2 = false) ∧
    (runLoop (fresh size c) (List.replicate c Event.recvFail)).2 = true ∧
    (runLoop (fresh size c) (List.replicate c Event.recvFail)).1.SendCount = c ∧
    (runLoop (fresh size c) (List.replicate c Event.recvFail)).1.RecvCount = 0 ∧
    (runLoop (fresh size c) (List.replicate c Event.recvFail)).1.printStatistics bits
      = some ((c : Int), 0, 100) := by
  refine ⟨fun m hm => by rw [runLoop_some_recvFail size c m hm], ?_⟩
  rw [runLoop_all_recvFail size c hc]
  refine ⟨rfl, rfl, rfl, ?_⟩
  have hne : (c : Int) ≠ 0 := by omega
  have hb2 : ((c * 100 : Nat) : Int) < ((2 ^ (bits - 1) : Nat) : Int) := by exact_mod_cast hb
  have hpos : (0 : Int) ≤ ((2 ^ (bits - 1) : Nat) : Int) := Int.ofNat_nonneg _
  push_cast at hb2
  simp only [Ping.printStatistics, fresh, NewPing, hne, if_false, sub_zero]
  rw [wrapInt_eq bits (c : Int) (by omega) (by omega),
    wrapInt_eq bits ((c : Int) * 100) (by omega) (by omega),
    Int.mul_tdiv_cancel_left 100 hne,
    wrapInt_eq bits 100 (by omega) (by omega)]

/-- Witness of C9 (amended) at the count 3 of the specification's scenario B,
on a 64-bit build. -/
theorem all_receives_fail_witness :
    1 ≤ 3 ∧ 3 * 100 < 2 ^ (64 - 1) ∧
    ((∀ m, m < 3 →
      (runLoop (fresh 64 (3 : Nat)) (List.replicate m Event.recvFail)).2 = false) ∧
    (runLoop (fresh 64 (3 : Nat)) (List.replicate 3 Event.recvFail)).2 = true ∧
    (runLoop (fresh 64 (3 : Nat)) (List.replicate 3 Event.recvFail)).1.SendCount = (3 : Nat) ∧
    (runLoop (fresh 64 (3 : Nat)) (List.replicate 3 Event.recvFail)).1.RecvCount = 0 ∧
    (runLoop (fresh 64 (3 : Nat)) (List.replicate 3 Event.recvFail)).1.printStatistics 64
      = some (((3 : Nat) : Int), 0, 100)) :=
  ⟨by decide, by decide, all_receives_fail 64 3 64 (by decide) (by decide)⟩

/-- C10 (the claim as stated fails): in tick 65536 the counter is 65536 but
bytes 4-5 and 6-7 of the packet are `00 00`, the encoding of 0. -/
theorem tickPacket_id_wraps :
    (runLoop (fresh 0 100000) (List.replicate 65535 Event.recvFail)).2 = false ∧
    (runLoop (fresh 0 100000) (List.replicate 65535 Event.recvFail)).1.ID + 1 = 65536 ∧
    (tickPacket (runLoop (fresh 0 100000) (List.replicate 65535 Event.recvFail)).1).drop 4
      = [0, 0, 0, 0] := by
  rw [runLoop_replicate_recvFail 65535 (fresh 0 100000) (by decide)]
  decide

theorem rawMsg_eq (id : Int) (size : Nat) :
    rawMsg id size =
      8 :: 0 :: 0 :: 0 :: u8 (toU16 id / 256) :: u8 (toU16 id) ::
        u8 (toU16 id / 256) :: u8 (toU16 id) :: List.replicate size 0 := by
  simp [rawMsg, header, ICMP.encode, bigEndian16, u8]

theorem buildMsg_eq (id : Int) (size : Nat) :
    buildMsg id size =
      8 :: 0 :: u8 (checkSum (rawMsg id size) / 256) :: u8 (checkSum (rawMsg id size)) ::
        u8 (toU16 id / 256) :: u8 (toU16 id) ::
        u8 (toU16 id / 256) :: u8 (toU16 id) :: List.replicate size 0 := by
  simp only [buildMsg]
  rw [rawMsg_eq]
  rfl

theorem checkSum_lt (data : List Nat) : checkSum data < 65536 := by
  unfold checkSum u16
  omega

theorem toU16_natCast (k : Nat) : toU16 (k : Int) = k % 65536 := by
  unfold toU16
  omega

/-- C10 (amended): the packet built in tick `k` (after `k - 1` ticks that did
not end the loop) is `8 + s` bytes long, starts with `8, 0`, carries in bytes
4-5 and again in bytes 6-7 the big-endian encoding of `k mod 65536`, then `s`
zero payload bytes, and in bytes 2-3 the big-endian encoding of `checkSum` of
the same bytes with the checksum field zero. -/
theorem tickPacket_layout (size : Nat) (count : Int) (es : List Event)
    (h : (runLoop (fresh size count) es).2 = false) :
    (tickPacket (runLoop (fresh size count) es).1).length = 8 + size ∧
    (tickPacket (runLoop (fresh size count) es).1).take 2 = [8, 0] ∧
    ((tickPacket (runLoop (fresh size count) es).1).drop 4).take 4
      = [(es.length + 1) % 65536 / 256, (es.length + 1) % 256,
         (es.length + 1) % 65536 / 256, (es.length + 1) % 256] ∧
    (tickPacket (runLoop (fresh size count) es).1).drop 8 = List.replicate size 0 ∧
    ((tickPacket (runLoop (fresh size count) es).1).drop 2).take 2
      = [checkSum (((tickPacket (runLoop (fresh size count) es).1).set 2 0).set 3 0) / 256,
         checkSum (((tickPacket (runLoop (fresh size count) es).1).set 2 0).set 3 0) % 256] := by
  have hid : (runLoop (fresh size count) es).1.ID + 1 = ((es.length + 1 : Nat) : Int) := by
    rw [runLoop_ID _ _ h]
    simp [fresh, NewPing]
  have hraw : ((tickPacket (runLoop (fresh size count) es).1).set 2 0).set 3 0
      = rawMsg ((es.length + 1 : Nat) : Int) size := by
    rw [tickPacket, hid, runLoop_Size, buildMsg_eq]
    simp only [rawMsg_eq]
    rfl
  rw [hraw]
  rw [tickPacket, hid, runLoop_Size, buildMsg_eq, toU16_natCast]
  have hcs := checkSum_lt (rawMsg ((es.length + 1 : Nat) : Int) (fresh size count).Size)
  have hsz : (fresh size count).Size = size := rfl
  rw [hsz] at hcs ⊢
  refine ⟨by simp; omega, rfl, ?_, rfl, ?_⟩
  · simp only [List.drop_succ_cons, List.drop_zero, List.take_succ_cons, List.take_zero, u8]
    have e1 : (es.length + 1) % 65536 / 256 % 256 = (es.length + 1) % 65536 / 256 := by omega
    have e2 : (es.length + 1) % 65536 % 256 = (es.length + 1) % 256 := by omega
    rw [e1, e2]
  · simp only [List.drop_succ_cons, List.drop_zero, List.take_succ_cons, List.take_zero, u8]
    have e1 : checkSum (rawMsg ((es.length + 1 : Nat) : Int) size) / 256 % 256
        = checkSum (rawMsg ((es.length + 1 : Nat) : Int) size) / 256 := by omega
    rw [e1]

/-- Witness of C10 (amended): the third packet of a session with payload size 2. -/
theorem tickPacket_layout_witness :
    (runLoop (fresh 2 4) [Event.reply 5, Event.recvFail]).2 = false ∧
    ((tickPacket (runLoop (fresh 2 4) [Event.reply 5, Event.recvFail]).1).length = 8 + 2 ∧
    (tickPacket (runLoop (fresh 2 4) [Event.reply 5, Event.recvFail]).1).take 2 = [8, 0] ∧
    ((tickPacket (runLoop (fresh 2 4) [Event.reply 5, Event.recvFail]).1).drop 4).take 4
      = [([Event.reply 5, Event.recvFail].length + 1) % 65536 / 256,
         ([Event.reply 5, Event.recvFail].length + 1) % 256,
         ([Event.reply 5, Event.recvFail].length + 1) % 65536 / 256,
         ([Event.reply 5, Event.recvFail].length + 1) % 256] ∧
    (tickPacket (runLoop (fresh 2 4) [Event.reply 5, Event.recvFail]).1).drop 8
      = List.replicate 2 0 ∧
    ((tickPacket (runLoop (fresh 2 4) [Event.reply 5, Event.recvFail]).1).drop 2).take 2
      = [checkSum (((tickPacket (runLoop (fresh 2 4)
            [Event.reply 5, Event.recvFail]).1).set 2 0).set 3 0) / 256,
         checkSum (((tickPacket (runLoop (fresh 2 4)
            [Event.reply 5, Event.recvFail]).1).set 2 0).set 3 0) % 256]) :=
  ⟨by decide, tickPacket_layout 2 4 [Event.reply 5, Event.recvFail] (by decide)⟩

end Misc
